import Mathlib

/-!
Verification development for the serde-mml Markdown codec.

Source files modelled (shallow embedding, strings as `List Char`):
- `src/ty.rs`    : the Type tag codec (`Display for Type`, `Type::from_str`).
- `src/md/writer.rs` : the Markdown list writer (`EscapedFormatter`, `Writer`).
- `src/md/reader.rs` : the indentation-tracking pull parser (`Reader`).
- `src/ser.rs`   : the generic serializer, modelled on a closed value grammar.
- `src/de.rs`    : the generic deserializer, with the catch-all value visitor.
-/

set_option maxRecDepth 20000

deriving instance DecidableEq for Except

namespace SerdeMml

/-- Text is modelled as a list of characters (Rust `&str` / `String`). -/
abbrev Str := List Char

/-- Turn a Lean string literal into our character-list representation. -/
def toC (s : String) : Str := s.data

/-- Rust `char::is_ascii_punctuation`: U+0021..=U+002F, U+003A..=U+0040,
U+005B..=U+0060, U+007B..=U+007E. -/
def isAsciiPunct (c : Char) : Bool :=
  (33 ≤ c.toNat && c.toNat ≤ 47) || (58 ≤ c.toNat && c.toNat ≤ 64) ||
  (91 ≤ c.toNat && c.toNat ≤ 96) || (123 ≤ c.toNat && c.toNat ≤ 126)

/-- Rust `char::is_ascii_digit`. -/
def isDigitCh (c : Char) : Bool := 48 ≤ c.toNat && c.toNat ≤ 57

/-! ## Decimal rendering and parsing of unsigned integers

Rust renders `usize` in decimal via `Display`, and parses it back with
`str::parse::<usize>()` (an optional leading `+`, then ASCII digits, failing
on an empty digit string, a non-digit, or a value outside the 64-bit range).
-/

/-- The decimal digit character for `d % 10`. -/
def digitCh (d : Nat) : Char :=
  match d % 10 with
  | 0 => '0' | 1 => '1' | 2 => '2' | 3 => '3' | 4 => '4'
  | 5 => '5' | 6 => '6' | 7 => '7' | 8 => '8' | _ => '9'

/-- Accumulator loop of the decimal printer. The fuel argument strictly
bounds the number of divisions by 10; `natToChars` supplies `n + 1`, which
always suffices. -/
def natToCharsAux : Nat → Nat → Str → Str
  | 0, _, acc => acc
  | fuel + 1, n, acc =>
    if n < 10 then digitCh n :: acc
    else natToCharsAux fuel (n / 10) (digitCh (n % 10) :: acc)

/-- Decimal rendering of a natural number, as Rust's `Display` for `usize`. -/
def natToChars (n : Nat) : Str := natToCharsAux (n + 1) n []

/-- Fold a digit string into its value, failing on a non-digit. -/
def digitsVal : Nat → Str → Option Nat
  | acc, [] => some acc
  | acc, c :: r => if isDigitCh c then digitsVal (10 * acc + (c.toNat - 48)) r else none

/-- The error enumeration of `ty.rs` (`ParseError`). The payload of
`IntParseError` (the wrapped `std::num::ParseIntError`) is dropped. -/
inductive ParseError where
  | unknownType
  | unknownSchema
  | missingDomain
  | missingPathFragment
  | intParseError
  deriving DecidableEq, Repr

/-- Rust `str::parse::<usize>()`: an optional leading `+`, then a nonempty
run of ASCII digits, with the value required to fit in 64 bits
(an out-of-range value is a `ParseIntError` just like a malformed one). -/
def parseUsize (s : Str) : Except ParseError Nat :=
  let s' := match s with
    | [] => []
    | c :: r => if c = '+' then r else c :: r
  match s' with
  | [] => .error .intParseError
  | _ =>
    match digitsVal 0 s' with
    | none => .error .intParseError
    | some v => if v < 2 ^ 64 then .ok v else .error .intParseError

/-! ## The Type tag (`ty.rs`) -/

/-- The 23-variant shape enumeration `Type` of `ty.rs`. Lengths (`usize` in
the source) are natural numbers; names and variants are strings. -/
inductive Ty where
  | boolT | i8T | i16T | i32T | i64T | i128T
  | u8T | u16T | u32T | u64T | u128T
  | f32T | f64T | charT | stringT | bytesT
  | noneT | someT | unitT
  | unitStructT (name : Str)
  | unitVariantT (name variant : Str)
  | newtypeStructT (name : Str)
  | newtypeVariantT (name variant : Str)
  | seqT (len : Option Nat)
  | tupleT (len : Nat)
  | tupleStructT (name : Str) (len : Nat)
  | tupleVariantT (name variant : Str) (len : Nat)
  | mapT (len : Option Nat)
  | structT (name : Str) (len : Nat)
  | structVariantT (name variant : Str) (len : Nat)
  deriving DecidableEq, Repr

/-- The characters of the URI scheme prefix `serde://`. -/
def schemeChars : Str := toC "serde://"

/-- `impl fmt::Display for Type` of `ty.rs`: the canonical textual encoding.
Each right-hand side spells the exact string the Rust `write!`/`f.pad`
calls produce, e.g. `serde://unit_variant/{name}/{variant}`. -/
def Ty.display : Ty → Str
  | .boolT => schemeChars ++ toC "bool"
  | .i8T => schemeChars ++ toC "i8"
  | .i16T => schemeChars ++ toC "i16"
  | .i32T => schemeChars ++ toC "i32"
  | .i64T => schemeChars ++ toC "i64"
  | .i128T => schemeChars ++ toC "i128"
  | .u8T => schemeChars ++ toC "u8"
  | .u16T => schemeChars ++ toC "u16"
  | .u32T => schemeChars ++ toC "u32"
  | .u64T => schemeChars ++ toC "u64"
  | .u128T => schemeChars ++ toC "u128"
  | .f32T => schemeChars ++ toC "f32"
  | .f64T => schemeChars ++ toC "f64"
  | .charT => schemeChars ++ toC "char"
  | .stringT => schemeChars ++ toC "string"
  | .bytesT => schemeChars ++ toC "bytes"
  | .noneT => schemeChars ++ toC "none"
  | .someT => schemeChars ++ toC "some"
  | .unitT => schemeChars ++ toC "unit"
  | .unitStructT name => schemeChars ++ (toC "unit_struct" ++ '/' :: name)
  | .unitVariantT name variant =>
    schemeChars ++ (toC "unit_variant" ++ '/' :: (name ++ '/' :: variant))
  | .newtypeStructT name => schemeChars ++ (toC "newtype_struct" ++ '/' :: name)
  | .newtypeVariantT name variant =>
    schemeChars ++ (toC "newtype_variant" ++ '/' :: (name ++ '/' :: variant))
  | .seqT (some len) => schemeChars ++ (toC "seq" ++ '/' :: natToChars len)
  | .seqT none => schemeChars ++ (toC "seq" ++ '/' :: [])
  | .tupleT len => schemeChars ++ (toC "tuple" ++ '/' :: natToChars len)
  | .tupleStructT name len =>
    schemeChars ++ (toC "tuple_struct" ++ '/' :: (name ++ '/' :: natToChars len))
  | .tupleVariantT name variant len =>
    schemeChars ++
      (toC "tuple_variant" ++ '/' :: (name ++ '/' :: (variant ++ '/' :: natToChars len)))
  | .mapT (some len) => schemeChars ++ (toC "map" ++ '/' :: natToChars len)
  | .mapT none => schemeChars ++ (toC "map" ++ '/' :: [])
  | .structT name len =>
    schemeChars ++ (toC "struct" ++ '/' :: (name ++ '/' :: natToChars len))
  | .structVariantT name variant len =>
    schemeChars ++
      (toC "struct_variant" ++ '/' :: (name ++ '/' :: (variant ++ '/' :: natToChars len)))

/-- `l` starts with the prefix `p` (Rust `str::starts_with`). -/
def hasPre : Str → Str → Bool
  | [], _ => true
  | _ :: _, [] => false
  | p :: ps, c :: cs => p = c && hasPre ps cs

/-- Rust `str::split('/')` on a character list: the list of segments between
separators. Splitting the empty string yields `[[]]`; a trailing separator
yields a trailing empty segment. -/
def splitSep (sep : Char) : Str → List Str
  | [] => [[]]
  | c :: rest =>
    if c = sep then [] :: splitSep sep rest
    else
      match splitSep sep rest with
      | s :: ss => (c :: s) :: ss
      | [] => [[c]]

/-- `fragment()` of `Type::from_str`: take the next path fragment, erroring
with `MissingPathFragment` when the iterator is exhausted. -/
def fragment : List Str → Except ParseError (Str × List Str)
  | [] => .error .missingPathFragment
  | f :: r => .ok (f, r)

/-- `opt_len()` of `Type::from_str`: `None` when the next segment is absent
or empty, otherwise the segment parsed as an unsigned integer. -/
def optLen : List Str → Except ParseError (Option Nat × List Str)
  | [] => .ok (none, [])
  | f :: r => if f = [] then .ok (none, r) else (parseUsize f).map fun v => (some v, r)

/-- The domain dispatch of `Type::from_str`: the `match domain` arms, with
the catch-all `_ => Err(UnknownType)`. -/
def fromDomain (domain : Str) (frags : List Str) : Except ParseError Ty :=
  if domain = toC "bool" then .ok .boolT
  else if domain = toC "i8" then .ok .i8T
  else if domain = toC "i16" then .ok .i16T
  else if domain = toC "i32" then .ok .i32T
  else if domain = toC "i64" then .ok .i64T
  else if domain = toC "i128" then .ok .i128T
  else if domain = toC "u8" then .ok .u8T
  else if domain = toC "u16" then .ok .u16T
  else if domain = toC "u32" then .ok .u32T
  else if domain = toC "u64" then .ok .u64T
  else if domain = toC "u128" then .ok .u128T
  else if domain = toC "f32" then .ok .f32T
  else if domain = toC "f64" then .ok .f64T
  else if domain = toC "char" then .ok .charT
  else if domain = toC "string" then .ok .stringT
  else if domain = toC "bytes" then .ok .bytesT
  else if domain = toC "none" then .ok .noneT
  else if domain = toC "some" then .ok .someT
  else if domain = toC "unit" then .ok .unitT
  else if domain = toC "unit_struct" then do
    let (name, _) ← fragment frags
    .ok (.unitStructT name)
  else if domain = toC "unit_variant" then do
    let (name, r) ← fragment frags
    let (variant, _) ← fragment r
    .ok (.unitVariantT name variant)
  else if domain = toC "newtype_struct" then do
    let (name, _) ← fragment frags
    .ok (.newtypeStructT name)
  else if domain = toC "newtype_variant" then do
    let (name, r) ← fragment frags
    let (variant, _) ← fragment r
    .ok (.newtypeVariantT name variant)
  else if domain = toC "seq" then do
    let (len, _) ← optLen frags
    .ok (.seqT len)
  else if domain = toC "tuple" then do
    let (f, _) ← fragment frags
    let len ← parseUsize f
    .ok (.tupleT len)
  else if domain = toC "tuple_struct" then do
    let (name, r) ← fragment frags
    let (f, _) ← fragment r
    let len ← parseUsize f
    .ok (.tupleStructT name len)
  else if domain = toC "tuple_variant" then do
    let (name, r) ← fragment frags
    let (variant, r2) ← fragment r
    let (f, _) ← fragment r2
    let len ← parseUsize f
    .ok (.tupleVariantT name variant len)
  else if domain = toC "map" then do
    let (len, _) ← optLen frags
    .ok (.mapT len)
  else if domain = toC "struct" then do
    let (name, r) ← fragment frags
    let (f, _) ← fragment r
    let len ← parseUsize f
    .ok (.structT name len)
  else if domain = toC "struct_variant" then do
    let (name, r) ← fragment frags
    let (variant, r2) ← fragment r
    let (f, _) ← fragment r2
    let len ← parseUsize f
    .ok (.structVariantT name variant len)
  else .error .unknownType

/-- `Type::from_str` of `ty.rs`: require the `serde://` prefix (else
`UnknownSchema`), strip it, split the remainder on `/`, and dispatch on the
first segment. `split` always yields at least one segment, so the
`MissingDomain` arm is kept for fidelity but never taken. -/
def fromStr (s : Str) : Except ParseError Ty :=
  if hasPre schemeChars s then
    let rest := s.drop schemeChars.length
    match splitSep '/' rest with
    | [] => .error .missingDomain
    | domain :: frags => fromDomain domain frags
  else .error .unknownSchema

/-! ## The Markdown list writer (`md/writer.rs`) -/

/-- `INDENT` of `writer.rs`: spaces per nesting level. -/
def INDENT : Nat := 4

/-- `n` ASCII spaces. -/
def spaces (n : Nat) : Str := List.replicate n ' '

/-- The bullet of a list cursor (`enum Bullet`). -/
inductive Bullet where
  | dottedNumber (n : Nat)
  | asterisk
  deriving DecidableEq, Repr

/-- `Display for Bullet`: `{n}.` or `*`. -/
def Bullet.render : Bullet → Str
  | .dottedNumber n => natToChars n ++ ['.']
  | .asterisk => ['*']

/-- `Bullet::advance`. -/
def Bullet.advance : Bullet → Bullet
  | .dottedNumber n => .dottedNumber (n + 1)
  | .asterisk => .asterisk

/-- The writer's list cursor (`struct List` of `writer.rs`; renamed to avoid
clashing with Lean's `List`). -/
structure MList where
  depth : Nat
  bullet : Bullet
  deriving DecidableEq, Repr

/-- `Writer::bullet`: with a cursor, emit `indent*depth` spaces, the bullet
and one space, and advance the bullet; without one, emit nothing. -/
def writerBullet : Option MList → Str × Option MList
  | none => ([], none)
  | some l =>
    (spaces (INDENT * l.depth) ++ l.bullet.render ++ [' '],
     some { l with bullet := l.bullet.advance })

/-- `EscapedFormatter::write_str`: each character is written by `write_char`,
which backslash-prefixes ASCII punctuation and passes everything else
through. -/
def escapeChars : Str → Str
  | [] => []
  | c :: r => (if isAsciiPunct c then ['\\', c] else [c]) ++ escapeChars r

/-- `Writer::link`: bullet, `[`, the escaped text, `](`, the URI verbatim,
`)`, then a line break. Returns the output and the advanced cursor. -/
def writerLink (list : Option MList) (text uri : Str) : Str × Option MList :=
  let (b, list') := writerBullet list
  (b ++ '[' :: (escapeChars text ++ ']' :: '(' :: (uri ++ [')', '\n'])), list')

/-- `Writer::bytes_link`: identical framing, but the bracketed text is the
base64 payload written verbatim (never escaped). The base64 encoding of the
raw bytes is an external pure function (spec §1), so the payload is
modelled as already-encoded text. -/
def writerBytesLink (list : Option MList) (payload uri : Str) : Str × Option MList :=
  let (b, list') := writerBullet list
  (b ++ '[' :: (payload ++ ']' :: '(' :: (uri ++ [')', '\n'])), list')

/-- `Writer::ordered_list`: when a parent cursor is present, emit the
parent's bullet and a line break (advancing the parent); the fresh cursor is
one depth deeper with a numeric bullet starting at 0. Returns
(output, updated parent, fresh cursor). -/
def writerOrderedOpen : Option MList → Str × Option MList × MList
  | none => ([], none, ⟨0, .dottedNumber 0⟩)
  | some p =>
    let (b, p') := writerBullet (some p)
    (b ++ ['\n'], p', ⟨p.depth + 1, .dottedNumber 0⟩)

/-- `Writer::unordered_list`: as `ordered_list` but the fresh cursor carries
the fixed `*` bullet. -/
def writerUnorderedOpen : Option MList → Str × Option MList × MList
  | none => ([], none, ⟨0, .asterisk⟩)
  | some p =>
    let (b, p') := writerBullet (some p)
    (b ++ ['\n'], p', ⟨p.depth + 1, .asterisk⟩)

/-! ## The Markdown list reader (`md/reader.rs`) -/

/-- The reader's token (`enum Item` of `reader.rs`, raw borrowed text). -/
inductive RTok where
  | link (text uri : Str)
  | pushOrderedList
  | pushUnorderedList
  | popList
  deriving DecidableEq, Repr

/-- How a full reader run ended. `done` is the normal end (the `EOF` state
with an empty indent stack). `aborted` is a `break None`/`?` inside the
link arm (the iterator just stops; in Rust indistinguishable from `done`
from the outside, kept separate here as instrumentation). `assertFail` is a
panicking `assert_eq!`/`unreachable!`. `fuelOut` marks insufficient fuel
and is never produced when the fuel bound below is used. -/
inductive REnd where
  | done
  | aborted
  | assertFail
  | fuelOut
  deriving DecidableEq, Repr

/-- The reader's state machine position (`enum State`). -/
inductive RSt where
  | beforeItem
  | inItem (d : Nat)
  | atEOF
  deriving DecidableEq, Repr

/-- Count the leading ASCII spaces (`Reader::next_depth`). -/
def countSpaces : Str → Nat
  | c :: r => if c = ' ' then countSpaces r + 1 else 0
  | [] => 0

/-- `Reader::take_chars_until`: the input before the first occurrence of
`needle`, and the input after it; `none` when `needle` does not occur (the
whole input is consumed). -/
def takeUntil (needle : Char) : Str → Option (Str × Str)
  | [] => none
  | c :: r =>
    if c = needle then some ([], r)
    else (takeUntil needle r).map fun p => (c :: p.1, p.2)

/-- The dedent test of `Reader::next`:
`self.indents.last().map_or(false, |&depth| new_depth < depth)`. -/
def dedentNow (indents : List Nat) (d : Nat) : Bool :=
  match indents.head? with
  | some top => decide (d < top)
  | none => false

/-- The indent test of `Reader::next`:
`self.indents.last().map_or(true, |&depth| new_depth > depth)`. -/
def indentNow (indents : List Nat) (d : Nat) : Bool :=
  match indents.head? with
  | some top => decide (top < d)
  | none => true

/-- One full run of `Reader` as an iterator, emitting the whole token
stream. The indent stack has its most recent entry at the head. The fuel
parameter bounds the loop iterations of `Reader::next`; every iteration
strictly decreases `3*|chars| + |indents| + weight(state)`, so the bound
used by `runReader` below is never exhausted. -/
def runF : Nat → Str → List Nat → RSt → List RTok × REnd
  | 0, _, _, _ => ([], .fuelOut)
  | fuel + 1, chars, indents, st =>
    match st with
    | .beforeItem =>
      let d := countSpaces chars
      runF fuel (chars.drop d) indents (.inItem d)
    | .inItem d =>
      -- the dedent arm pops one indent and yields one PopList
      if dedentNow indents d then
        let p := runF fuel chars indents.tail (.inItem d)
        (.popList :: p.1, p.2)
      else
        match chars with
        | [] => runF fuel [] indents .atEOF
        | c :: rest =>
          if isDigitCh c || c = '*' then
            -- a digit bullet consumes the remaining digits and requires `.`
            let afterDot : Option Str :=
              if isDigitCh c then
                match rest.dropWhile (fun ch => isDigitCh ch) with
                | c1 :: r2 => if c1 = '.' then some r2 else none
                | [] => none
              else some rest
            match afterDot with
            | none => ([], .assertFail)
            | some r2 =>
              match r2 with
              | c2 :: r3 =>
                if c2 = ' ' then
                  -- an indent pushes a new entry and yields a Push token
                  if indentNow indents d then
                    let p := runF fuel r3 (d :: indents) (.inItem d)
                    ((if c = '*' then RTok.pushUnorderedList else RTok.pushOrderedList) :: p.1,
                      p.2)
                  else runF fuel r3 indents (.inItem d)
                else ([], .assertFail)
              | [] => ([], .assertFail)
          else if c = '\n' then runF fuel rest indents .beforeItem
          else if c = '[' then
            match takeUntil ']' rest with
            | none => ([], .aborted)
            | some (text, r1) =>
              match r1 with
              | c1 :: r2 =>
                if c1 = '(' then
                  match takeUntil ')' r2 with
                  | none => ([], .aborted)
                  | some (uri, r3) =>
                    match takeUntil '\n' r3 with
                    | none => ([], .aborted)
                    | some (_, r4) =>
                      let p := runF fuel r4 indents .beforeItem
                      (.link text uri :: p.1, p.2)
                else ([], .aborted)
              | [] => ([], .aborted)
          else ([], .assertFail)
    | .atEOF =>
      match indents with
      | [] => ([], .done)
      | _ :: t =>
        let p := runF fuel chars t .atEOF
        (.popList :: p.1, p.2)

/-- Run the reader on a document from its initial state, with enough fuel
(see `runF`). -/
def runReader (doc : Str) : List RTok × REnd :=
  runF (3 * doc.length + 8) doc [] .beforeItem

/-- Modelled from the spec: the `md` module glue (`src/md.rs` or
`src/md/mod.rs`, not present under `src/`) adapts `reader::Item` (raw
borrowed text) into the copy-on-write `Item` consumed by `de.rs`,
unescaping backslash-escaped characters of link text (§4.3/§9: "the reader
yields slices borrowed from the input buffer; escaping/unescaping ... force
a copy"). A backslash makes the following character literal. -/
def unescape : Str → Str
  | [] => []
  | '\\' :: c :: r => c :: unescape r
  | c :: r => c :: unescape r

/-- The token stream as seen by the deserializer: link text unescaped by
the (spec-modelled) `md` adapter, URIs untouched. -/
def mdTokens (raw : List RTok) : List RTok :=
  raw.map fun t =>
    match t with
    | .link text uri => .link (unescape text) uri
    | x => x

/-! ## The value grammar

A closed value model for the generic visitor contract (spec §3), in the
style of the `serde_value::Value` grammar that `lib.rs`'s round-trip
property tests use. Floating-point literals and byte-buffer payloads are
kept as text: their numeric parsing/printing and base64 coding are external
pure functions per spec §1. -/

inductive Value where
  | boolV (b : Bool)
  | i8V (n : Int) | i16V (n : Int) | i32V (n : Int) | i64V (n : Int) | i128V (n : Int)
  | u8V (n : Nat) | u16V (n : Nat) | u32V (n : Nat) | u64V (n : Nat) | u128V (n : Nat)
  | f32V (lit : Str) | f64V (lit : Str)
  | charV (c : Char)
  | stringV (s : Str)
  | bytesV (b64 : Str)
  | unitV
  | optionV (o : Option Value)
  | unitStructV (name : Str)
  | unitVariantV (name variant : Str)
  | newtypeStructV (name : Str) (v : Value)
  | newtypeVariantV (name variant : Str) (v : Value)
  | seqV (vs : List Value)
  | tupleV (vs : List Value)
  | tupleStructV (name : Str) (vs : List Value)
  | tupleVariantV (name variant : Str) (vs : List Value)
  | mapV (entries : List (Value × Value))
  | structV (name : Str) (fields : List (Str × Value))
  | structVariantV (name variant : Str) (fields : List (Str × Value))
  | newtypeV (v : Value)
  | enumV (variant : Str) (v : Value)

mutual

/-- Nesting depth of a value: fuel bound for the serializer's recursion. -/
def Value.depth : Value → Nat
  | .boolV _ | .i8V _ | .i16V _ | .i32V _ | .i64V _ | .i128V _ => 0
  | .u8V _ | .u16V _ | .u32V _ | .u64V _ | .u128V _ => 0
  | .f32V _ | .f64V _ | .charV _ | .stringV _ | .bytesV _ | .unitV => 0
  | .optionV none | .unitStructV _ | .unitVariantV _ _ => 0
  | .optionV (some v) => v.depth + 1
  | .newtypeStructV _ v => v.depth + 1
  | .newtypeVariantV _ _ v => v.depth + 1
  | .seqV vs | .tupleV vs => depthList vs + 1
  | .tupleStructV _ vs | .tupleVariantV _ _ vs => depthList vs + 1
  | .mapV ps => depthPairs ps + 1
  | .structV _ fs | .structVariantV _ _ fs => depthFields fs + 1
  | .newtypeV v => v.depth + 1
  | .enumV _ v => v.depth + 1

/-- Depth of a list of values. -/
def depthList : List Value → Nat
  | [] => 0
  | v :: r => max v.depth (depthList r)

/-- Depth of a list of key/value entries. -/
def depthPairs : List (Value × Value) → Nat
  | [] => 0
  | (k, v) :: r => max (max k.depth v.depth) (depthPairs r)

/-- Depth of a list of named fields. -/
def depthFields : List (Str × Value) → Nat
  | [] => 0
  | (_, v) :: r => max v.depth (depthFields r)

end

/-- Decimal rendering of a signed integer, as Rust's `Display`. -/
def intToChars (i : Int) : Str :=
  if i < 0 then '-' :: natToChars i.natAbs else natToChars i.toNat

/-! ## The generic serializer (`ser.rs`) -/

/-- Serializer state: the output accumulated so far and the current list
cursor (`Serializer { writer, list }`). -/
structure SerSt where
  out : Str
  list : Option MList
  deriving DecidableEq, Repr

/-- `Serializer::ser_link`: one link at the current cursor. -/
def serLink (st : SerSt) (text uri : Str) : SerSt :=
  let (o, l') := writerLink st.list text uri
  ⟨st.out ++ o, l'⟩

/-- `serialize_bytes`: one bytes link at the current cursor. -/
def serBytesLink (st : SerSt) (payload uri : Str) : SerSt :=
  let (o, l') := writerBytesLink st.list payload uri
  ⟨st.out ++ o, l'⟩

/-- `Serializer::ser_ordered_list` / `ser_seq` + `SerializeSeq::end`: take
the parent cursor, open an ordered sublist under it (advancing the parent),
write the tag link, run the body inside the sublist, then restore the
(advanced) parent. -/
def serOrderedWith (st : SerSt) (text uri : Str) (inner : SerSt → SerSt) : SerSt :=
  let (o, parent', sub) := writerOrderedOpen st.list
  let st2 := inner (serLink ⟨st.out ++ o, some sub⟩ text uri)
  ⟨st2.out, parent'⟩

/-- `Serializer::ser_map` + `SerializeMap::end`: as `serOrderedWith` with an
unordered sublist. -/
def serUnorderedWith (st : SerSt) (text uri : Str) (inner : SerSt → SerSt) : SerSt :=
  let (o, parent', sub) := writerUnorderedOpen st.list
  let st2 := inner (serLink ⟨st.out ++ o, some sub⟩ text uri)
  ⟨st2.out, parent'⟩

/-- `SerializeMap::serialize_key` + `serialize_value`: open the anonymous
ordered pair list under the current (map) cursor — advancing it — move into
the pair list, serialize key then value there, then restore the map
cursor. -/
def serPairWith (st : SerSt) (kf vf : SerSt → SerSt) : SerSt :=
  let (o, outer', pair) := writerOrderedOpen st.list
  let st2 := vf (kf ⟨st.out ++ o, some pair⟩)
  ⟨st2.out, outer'⟩

/-- The text and URI of `serialize_seq`'s tag link, per its
`format_args!` calls (`serde://seq/{len}`, or `serde://seq/` for an unknown
length). -/
def serializeSeqHeader : Option Nat → Str × Str
  | some len => (toC "Seq of length " ++ natToChars len, toC "serde://seq/" ++ natToChars len)
  | none => (toC "Seq of unknown length", toC "serde://seq/")

/-- The text and URI of `serialize_map`'s tag link, per its format calls
(`serde://map/{len}`, or the bare `serde://map` for an unknown length). -/
def serializeMapHeader : Option Nat → Str × Str
  | some len => (toC "Map of length " ++ natToChars len, toC "serde://map/" ++ natToChars len)
  | none => (toC "Map of unknown length", toC "serde://map")

/-- The value walk of `impl ser::Serializer for &mut Serializer`: one arm
per `serialize_*` method. Containers report their known length (`Some(len)`)
the way the standard sequence/map implementations do. The fuel argument
bounds the recursion depth; `serializeDoc` supplies `sizeOf v + 1`, which
always exceeds the value's depth, so the fuel-out arm (returning the state
unchanged) is never taken. The deserializer-only results `newtypeV`/`enumV`
re-serialize transparently as their payload. -/
def serValue : Nat → Value → SerSt → SerSt
  | 0, _, st => st
  | fuel + 1, v, st =>
    match v with
    | .boolV b => serLink st (toC (if b then "true" else "false")) (toC "serde://bool")
    | .i8V n => serLink st (intToChars n) (toC "serde://i8")
    | .i16V n => serLink st (intToChars n) (toC "serde://i16")
    | .i32V n => serLink st (intToChars n) (toC "serde://i32")
    | .i64V n => serLink st (intToChars n) (toC "serde://i64")
    | .i128V n => serLink st (intToChars n) (toC "serde://i128")
    | .u8V n => serLink st (natToChars n) (toC "serde://u8")
    | .u16V n => serLink st (natToChars n) (toC "serde://u16")
    | .u32V n => serLink st (natToChars n) (toC "serde://u32")
    | .u64V n => serLink st (natToChars n) (toC "serde://u64")
    | .u128V n => serLink st (natToChars n) (toC "serde://u128")
    | .f32V lit => serLink st lit (toC "serde://f32")
    | .f64V lit => serLink st lit (toC "serde://f64")
    | .charV c => serLink st [c] (toC "serde://char")
    | .stringV s => serLink st s (toC "serde://string")
    | .bytesV b64 => serBytesLink st b64 (toC "serde://bytes")
    | .unitV => serLink st (toC "()") (toC "serde://unit")
    | .optionV none => serLink st (toC "None") (toC "serde://option/none")
    | .optionV (some v') =>
      serOrderedWith st (toC "Some") (toC "serde://option/some") (serValue fuel v')
    | .unitStructV name => serLink st (toC "name") (toC "serde://unit_struct/" ++ name)
    | .unitVariantV name variant =>
      serLink st (name ++ toC "::" ++ variant)
        (toC "serde://unit_variant/" ++ name ++ '/' :: variant)
    | .newtypeStructV name v' =>
      serOrderedWith st name (toC "serde://newtype_struct/" ++ name) (serValue fuel v')
    | .newtypeVariantV name variant v' =>
      serOrderedWith st (name ++ toC "::" ++ variant)
        (toC "serde://newtype_variant/" ++ name ++ '/' :: variant) (serValue fuel v')
    | .seqV vs =>
      let (text, uri) := serializeSeqHeader (some vs.length)
      serOrderedWith st text uri fun st' =>
        vs.foldl (fun acc e => serValue fuel e acc) st'
    | .tupleV vs =>
      serOrderedWith st (toC "Tuple of length " ++ natToChars vs.length)
        (toC "serde://tuple/" ++ natToChars vs.length) fun st' =>
        vs.foldl (fun acc e => serValue fuel e acc) st'
    | .tupleStructV name vs =>
      serOrderedWith st
        (toC "Tuple struct " ++ name ++ toC " of length " ++ natToChars vs.length)
        (toC "serde://tuple_struct/" ++ name ++ '/' :: natToChars vs.length) fun st' =>
        vs.foldl (fun acc e => serValue fuel e acc) st'
    | .tupleVariantV name variant vs =>
      serOrderedWith st
        (toC "Tuple variant " ++ name ++ toC "::" ++ variant ++ toC " of length " ++
          natToChars vs.length)
        (toC "serde://tuple_variant/" ++ name ++ '/' :: variant ++ '/' :: natToChars vs.length)
        fun st' => vs.foldl (fun acc e => serValue fuel e acc) st'
    | .mapV entries =>
      let (text, uri) := serializeMapHeader (some entries.length)
      serUnorderedWith st text uri fun st' =>
        entries.foldl
          (fun acc kv => serPairWith acc (serValue fuel kv.1) (serValue fuel kv.2)) st'
    | .structV name fields =>
      serUnorderedWith st
        (toC "Struct " ++ name ++ toC " of length " ++ natToChars fields.length)
        (toC "serde://struct/" ++ name ++ '/' :: natToChars fields.length) fun st' =>
        fields.foldl
          (fun acc kv =>
            serPairWith acc (fun a => serLink a kv.1 (toC "serde://string"))
              (serValue fuel kv.2)) st'
    | .structVariantV name variant fields =>
      serUnorderedWith st
        (toC "Struct variant " ++ name ++ toC "::" ++ variant ++ toC " of length " ++
          natToChars fields.length)
        (toC "serde://struct_variant/" ++ name ++ '/' :: variant ++ '/' ::
          natToChars fields.length) fun st' =>
        fields.foldl
          (fun acc kv =>
            serPairWith acc (fun a => serLink a kv.1 (toC "serde://string"))
              (serValue fuel kv.2)) st'
    | .newtypeV v' => serValue fuel v' st
    | .enumV _ v' => serValue fuel v' st

/-- Serialize a value to a complete document, starting at the document root
(`Serializer::new`: no cursor). The fuel `depth + 1` always suffices. -/
def serializeDoc (v : Value) : Str :=
  (serValue (v.depth + 1) v ⟨[], none⟩).out

example : serializeDoc (.optionV none) = toC "[None](serde://option/none)\n" := by decide
example :
    serializeDoc (.structV (toC "Point") [(toC "x", .u8V 1), (toC "y", .u8V 2)]) =
    toC ("* [Struct Point of length 2](serde://struct/Point/2)\n* \n" ++
      "    0. [x](serde://string)\n    1. [1](serde://u8)\n* \n" ++
      "    0. [y](serde://string)\n    1. [2](serde://u8)\n") := by decide

/-! ## The generic deserializer (`de.rs`)

The visitor is instantiated with the catch-all value builder (the
`serde_value`-style visitor that `lib.rs`'s round-trip tests deserialize
into): primitives map to the matching `Value` constructors, sequences
collect into `seqV`, maps and structs collect key/value pairs into `mapV`,
`visit_newtype_struct` builds `newtypeV`, and `visit_enum` builds `enumV`.
-/

/-- The error enumeration of `error.rs` restricted to the deserializing
paths, plus `assertFail` for the panicking `assert_eq!`/`unreachable!`
branches and `fuelOut` for exhausted fuel (never reached with the bound
`deserializeDoc` uses). All the primitive-literal parse failures
(`ParseIntError`, `ParseBoolError`, ...) are collapsed into
`primParse`. -/
inductive DErr where
  | unexpectedEOF
  | typeParse (e : ParseError)
  | primParse
  | assertFail
  | fuelOut
  deriving DecidableEq, Repr

/-- Nonempty all-digit value of a string (shared by the Rust integer
`from_str` implementations). -/
def decDigits (s : Str) : Option Nat :=
  match s with
  | [] => none
  | _ => digitsVal 0 s

/-- Rust `uN::from_str`: optional leading `+`, nonempty digits, value below
`2^bits`. -/
def parseUInt (bits : Nat) (s : Str) : Except DErr Nat :=
  let s' := match s with
    | [] => []
    | c :: r => if c = '+' then r else c :: r
  match decDigits s' with
  | none => .error .primParse
  | some v => if v < 2 ^ bits then .ok v else .error .primParse

/-- Rust `iN::from_str`: optional sign, nonempty digits, value within
`[-2^(bits-1), 2^(bits-1) - 1]`. -/
def parseSInt (bits : Nat) (s : Str) : Except DErr Int :=
  match s with
  | '-' :: r =>
    match decDigits r with
    | none => .error .primParse
    | some v => if v ≤ 2 ^ (bits - 1) then .ok (-(v : Int)) else .error .primParse
  | '+' :: r =>
    match decDigits r with
    | none => .error .primParse
    | some v => if v < 2 ^ (bits - 1) then .ok (v : Int) else .error .primParse
  | _ =>
    match decDigits s with
    | none => .error .primParse
    | some v => if v < 2 ^ (bits - 1) then .ok (v : Int) else .error .primParse

/-- Rust `bool::from_str`: exactly `true` or `false`. -/
def parseBoolCh (s : Str) : Except DErr Bool :=
  if s = toC "true" then .ok true
  else if s = toC "false" then .ok false
  else .error .primParse

/-- Rust `char::from_str`: exactly one character. -/
def parseCharCh (s : Str) : Except DErr Char :=
  match s with
  | [c] => .ok c
  | _ => .error .primParse

/-- `Deserializer::primitive`: decode the link's Type tag and build the
primitive value from the link text. Float literals and base64 byte payloads
are kept as text (their parsing is an external pure function, spec §1; the
possible base64 decode failure is therefore not modelled). Composite tags
are `unreachable!()` here. -/
def deserPrimitive (text uri : Str) : Except DErr Value :=
  match fromStr uri with
  | .error e => .error (.typeParse e)
  | .ok t =>
    match t with
    | .boolT => (parseBoolCh text).map .boolV
    | .i8T => (parseSInt 8 text).map .i8V
    | .i16T => (parseSInt 16 text).map .i16V
    | .i32T => (parseSInt 32 text).map .i32V
    | .i64T => (parseSInt 64 text).map .i64V
    | .i128T => (parseSInt 128 text).map .i128V
    | .u8T => (parseUInt 8 text).map .u8V
    | .u16T => (parseUInt 16 text).map .u16V
    | .u32T => (parseUInt 32 text).map .u32V
    | .u64T => (parseUInt 64 text).map .u64V
    | .u128T => (parseUInt 128 text).map .u128V
    | .f32T => .ok (.f32V text)
    | .f64T => .ok (.f64V text)
    | .charT => (parseCharCh text).map .charV
    | .stringT => .ok (.stringV text)
    | .bytesT => .ok (.bytesV text)
    | .noneT => .ok (.optionV none)
    | .unitT => .ok .unitV
    | .unitStructT _ => .ok .unitV
    | .unitVariantT _ variant => .ok (.enumV variant .unitV)
    | _ => .error .assertFail

/-- The consumption mode of the deserializer walk: one value
(`deserialize_any`), the element loop of `SeqAccess`, or the key/value pair
loop of `MapAccess`. -/
inductive DMode where
  | single
  | elems
  | pairs
  deriving DecidableEq, Repr

/-- The deserializer walk over the token stream, mirroring
`deserialize_any` / `ordered_list` / `unordered_list` / `SeqAccess` /
`MapAccess` of `de.rs`, with one token of lookahead expressed by direct
pattern matching. In mode `elems` the result is always a `seqV`, in mode
`pairs` always a `mapV`; the two `assertFail` arms destructuring them can
therefore never fire. The fuel bounds the recursion depth;
`deserializeDoc` supplies `2 * |tokens| + 4`, which always suffices since
every nested call first consumes at least one token or switches mode once.
-/
def deserGo : Nat → DMode → List RTok → Except DErr (Value × List RTok)
  | 0, _, _ => .error .fuelOut
  | fuel + 1, .single, toks =>
    match toks with
    | [] => .error .unexpectedEOF
    | .popList :: rest =>
      -- deserialize_any: assert_eq!(self.reader.next(), None) then UnexpectedEOF
      if rest.isEmpty then .error .unexpectedEOF else .error .assertFail
    | .link text uri :: rest => (deserPrimitive text uri).map fun v => (v, rest)
    | .pushOrderedList :: rest =>
      -- Deserializer::ordered_list
      match rest with
      | [] => .error .unexpectedEOF
      | .link _ uri :: rest2 =>
        match fromStr uri with
        | .error e => .error (.typeParse e)
        | .ok t =>
          match t with
          | .someT => do
            let (v, r) ← deserGo fuel .single rest2
            match r with
            | .popList :: r2 => .ok (.optionV (some v), r2)
            | _ => .error .assertFail
          | .newtypeStructT _ => do
            let (v, r) ← deserGo fuel .single rest2
            match r with
            | .popList :: r2 => .ok (.newtypeV v, r2)
            | _ => .error .assertFail
          | .newtypeVariantT _ variant => do
            let (v, r) ← deserGo fuel .single rest2
            match r with
            | .popList :: r2 => .ok (.enumV variant v, r2)
            | _ => .error .assertFail
          | .seqT _ => deserGo fuel .elems rest2
          | .tupleT _ => deserGo fuel .elems rest2
          | .tupleStructT _ _ => deserGo fuel .elems rest2
          | .tupleVariantT _ variant _ => do
            -- visit_enum → tuple_variant → deserialize_tuple → deserialize_any
            let (v, r) ← deserGo fuel .single rest2
            .ok (.enumV variant v, r)
          | _ => .error .assertFail
      | _ :: _ => .error .assertFail
    | .pushUnorderedList :: rest =>
      -- Deserializer::unordered_list
      match rest with
      | [] => .error .unexpectedEOF
      | .link _ uri :: rest2 =>
        match fromStr uri with
        | .error e => .error (.typeParse e)
        | .ok t =>
          match t with
          | .mapT _ => deserGo fuel .pairs rest2
          | .structT _ _ => deserGo fuel .pairs rest2
          | .structVariantT _ variant _ => do
            -- visit_enum → struct_variant → deserialize_map → deserialize_any
            let (v, r) ← deserGo fuel .single rest2
            .ok (.enumV variant v, r)
          | _ => .error .assertFail
      | _ :: _ => .error .assertFail
  | fuel + 1, .elems, toks =>
    -- SeqAccess::next_element_seed: stop on (and consume) a peeked PopList
    match toks with
    | .popList :: r => .ok (.seqV [], r)
    | _ => do
      let (v, r) ← deserGo fuel .single toks
      let (tl, r2) ← deserGo fuel .elems r
      match tl with
      | .seqV vs => .ok (.seqV (v :: vs), r2)
      | _ => .error .assertFail
  | fuel + 1, .pairs, toks =>
    -- MapAccess::next_key_seed / next_value_seed
    match toks with
    | .popList :: r => .ok (.mapV [], r)
    | .pushOrderedList :: r => do
      let (k, r1) ← deserGo fuel .single r
      let (v, r2) ← deserGo fuel .single r1
      match r2 with
      | .popList :: r3 => do
        let (tl, r4) ← deserGo fuel .pairs r3
        match tl with
        | .mapV ps => .ok (.mapV ((k, v) :: ps), r4)
        | _ => .error .assertFail
      | _ => .error .assertFail
    | _ => .error .assertFail

/-- Decode a whole document: run the reader (a panic in it propagates), pass
the tokens through the md adapter, and deserialize one top-level value
(`deserialize_any`); trailing tokens are left unconsumed as in
`T::deserialize(&mut Deserializer::new(text))`. -/
def deserializeDoc (doc : Str) : Except DErr Value :=
  let (raw, e) := runReader doc
  match e with
  | .assertFail => .error .assertFail
  | .fuelOut => .error .fuelOut
  | _ =>
    let toks := mdTokens raw
    (deserGo (2 * toks.length + 4) .single toks).map (·.1)

example : deserializeDoc (toC "[None](serde://none)\n") = .ok (.optionV none) := rfl
example : deserializeDoc (toC "[None](serde://option/none)\n") =
    .error (.typeParse .unknownType) := rfl
example :
    deserializeDoc (toC "0. [Some](serde://some)\n1. [7](serde://u8)\n") =
    .ok (.optionV (some (.u8V 7))) := rfl
example :
    deserializeDoc (serializeDoc (.structV (toC "Point") [(toC "x", .u8V 1), (toC "y", .u8V 2)])) =
    .ok (.mapV [(.stringV (toC "x"), .u8V 1), (.stringV (toC "y"), .u8V 2)]) := rfl

/-! ## Lemmas: decimal printing round-trips through decimal parsing -/

lemma digitCh_digit {d : Nat} (h : d < 10) : isDigitCh (digitCh d) = true := by
  interval_cases d <;> decide

lemma digitCh_toNat {d : Nat} (h : d < 10) : (digitCh d).toNat = 48 + d := by
  interval_cases d <;> decide

/-- `10 ^ (number of decimal digits of n)`; proof-only. -/
def npow (n : Nat) : Nat := if n < 10 then 10 else 10 * npow (n / 10)
termination_by n
decreasing_by exact Nat.div_lt_self (by omega) (by omega)

lemma npow_lt {n : Nat} (h : n < 10) : npow n = 10 := by rw [npow, if_pos h]

lemma npow_ge {n : Nat} (h : ¬n < 10) : npow n = 10 * npow (n / 10) := by
  conv_lhs => rw [npow]
  rw [if_neg h]

lemma digitsVal_natToCharsAux :
    ∀ (fuel n a : Nat) (acc : Str), n < fuel →
      digitsVal a (natToCharsAux fuel n acc) = digitsVal (a * npow n + n) acc := by
  intro fuel
  induction fuel with
  | zero => intro n a acc h; omega
  | succ fuel ih =>
    intro n a acc h
    by_cases h10 : n < 10
    · rw [natToCharsAux, if_pos h10, npow_lt h10]
      simp [digitsVal, digitCh_digit h10, digitCh_toNat h10]
      congr 1
      omega
    · rw [natToCharsAux, if_neg h10, ih (n / 10) a _ (by omega)]
      have hm : n % 10 < 10 := Nat.mod_lt _ (by omega)
      simp [digitsVal, digitCh_digit hm, digitCh_toNat hm]
      rw [npow_ge h10]
      congr 1
      have hdm := Nat.div_add_mod n 10
      set P := npow (n / 10)
      set q := n / 10
      set m := n % 10
      ring_nf
      omega

lemma mem_natToCharsAux :
    ∀ (fuel n : Nat) (acc : Str) (c : Char), n < fuel → c ∈ natToCharsAux fuel n acc →
      c ∈ acc ∨ isDigitCh c = true := by
  intro fuel
  induction fuel with
  | zero => intro n acc c h _; omega
  | succ fuel ih =>
    intro n acc c h hc
    by_cases h10 : n < 10
    · rw [natToCharsAux, if_pos h10] at hc
      rcases List.mem_cons.mp hc with hc | hc
      · exact Or.inr (hc ▸ digitCh_digit h10)
      · exact Or.inl hc
    · rw [natToCharsAux, if_neg h10] at hc
      rcases ih (n / 10) _ c (by omega) hc with hc' | hc'
      · rcases List.mem_cons.mp hc' with hc' | hc'
        · exact Or.inr (hc' ▸ digitCh_digit (Nat.mod_lt _ (by omega)))
        · exact Or.inl hc'
      · exact Or.inr hc'

lemma natToCharsAux_ne_nil :
    ∀ (fuel n : Nat) (acc : Str), n < fuel → natToCharsAux fuel n acc ≠ [] := by
  intro fuel
  induction fuel with
  | zero => intro n acc h; omega
  | succ fuel ih =>
    intro n acc h
    by_cases h10 : n < 10
    · rw [natToCharsAux, if_pos h10]; exact List.cons_ne_nil _ _
    · rw [natToCharsAux, if_neg h10]; exact ih (n / 10) _ (by omega)

lemma natToChars_digits {n : Nat} {c : Char} (hc : c ∈ natToChars n) : isDigitCh c = true := by
  rcases mem_natToCharsAux (n + 1) n [] c (by omega) hc with h | h
  · simp at h
  · exact h

lemma natToChars_ne_nil (n : Nat) : natToChars n ≠ [] :=
  natToCharsAux_ne_nil (n + 1) n [] (by omega)

lemma natToChars_noSlash {n : Nat} {c : Char} (hc : c ∈ natToChars n) : c ≠ '/' := by
  intro he
  have := natToChars_digits hc
  rw [he] at this
  simp [isDigitCh] at this

lemma digitsVal_natToChars (n : Nat) : digitsVal 0 (natToChars n) = some n := by
  rw [natToChars, digitsVal_natToCharsAux (n + 1) n 0 [] (by omega)]
  simp [digitsVal]

lemma parseUsize_natToChars {n : Nat} (h : n < 2 ^ 64) : parseUsize (natToChars n) = .ok n := by
  rcases hcr : natToChars n with _ | ⟨c, r⟩
  · exact absurd hcr (natToChars_ne_nil n)
  · have hd : isDigitCh c = true := natToChars_digits (by rw [hcr]; exact List.mem_cons_self _ _)
    have hplus : c ≠ '+' := by
      intro he
      rw [he] at hd
      simp [isDigitCh] at hd
    have hval := digitsVal_natToChars n
    rw [hcr] at hval
    unfold parseUsize
    have hstrip : (if c = '+' then r else c :: r) = c :: r := if_neg hplus
    simp only [hstrip]
    rw [hval]
    simp only []
    rw [if_pos h]

/-! ## Lemmas: prefixes and segment splitting -/

lemma hasPre_append (p r : Str) : hasPre p (p ++ r) = true := by
  induction p with
  | nil => rfl
  | cons c cs ih => simp [hasPre, ih]

lemma splitSep_ne_nil (sep : Char) (s : Str) : splitSep sep s ≠ [] := by
  cases s with
  | nil => simp [splitSep]
  | cons c r =>
    rw [splitSep]
    by_cases h : c = sep
    · simp [h]
    · rw [if_neg h]
      rcases hs : splitSep sep r with _ | ⟨a, b⟩ <;> simp

lemma splitSep_no {sep : Char} {a : Str} (h : ∀ c ∈ a, c ≠ sep) : splitSep sep a = [a] := by
  induction a with
  | nil => rfl
  | cons c r ih =>
    rw [splitSep, if_neg (h c (List.mem_cons_self _ _)),
      ih fun x hx => h x (List.mem_cons_of_mem _ hx)]

lemma splitSep_app {sep : Char} {a : Str} (h : ∀ c ∈ a, c ≠ sep) (b : Str) :
    splitSep sep (a ++ sep :: b) = a :: splitSep sep b := by
  induction a with
  | nil => simp [splitSep]
  | cons c r ih =>
    rw [List.cons_append, splitSep, if_neg (h c (List.mem_cons_self _ _)),
      ih fun x hx => h x (List.mem_cons_of_mem _ hx)]

lemma fromStr_scheme (r : Str) :
    fromStr (schemeChars ++ r) =
      match splitSep '/' r with
      | [] => .error .missingDomain
      | domain :: frags => fromDomain domain frags := by
  simp [fromStr, hasPre_append, List.drop_left]

/-- Names and variants are opaque strings with no embedded `/` (spec §3). -/
abbrev noSlash (s : Str) : Prop := ∀ c ∈ s, c ≠ '/'

/-- A `Type` value constructible in the source: names/variants carry no
embedded `/`, and lengths fit in `usize` (64 bits). -/
abbrev constructible : Ty → Prop
  | .unitStructT n => noSlash n
  | .unitVariantT n v => noSlash n ∧ noSlash v
  | .newtypeStructT n => noSlash n
  | .newtypeVariantT n v => noSlash n ∧ noSlash v
  | .seqT (some l) => l < 2 ^ 64
  | .tupleT l => l < 2 ^ 64
  | .tupleStructT n l => noSlash n ∧ l < 2 ^ 64
  | .tupleVariantT n v l => noSlash n ∧ noSlash v ∧ l < 2 ^ 64
  | .mapT (some l) => l < 2 ^ 64
  | .structT n l => noSlash n ∧ l < 2 ^ 64
  | .structVariantT n v l => noSlash n ∧ noSlash v ∧ l < 2 ^ 64
  | _ => True

lemma natToChars_noSlashAll (n : Nat) : ∀ c ∈ natToChars n, c ≠ '/' :=
  fun _ hc => natToChars_noSlash hc

example : isAsciiPunct ']' = true := by decide
example : toC "ab" = ['a', 'b'] := by decide
example : toC "a/b" = ['a', '/', 'b'] := rfl
example : runReader (toC "* [a](u)\n") =
    ([.pushUnorderedList, .link (toC "a") (toC "u"), .popList], .done) := by decide
example :
    runReader (toC "0. [Some](serde://option/some)\n1. [0](serde://u8)\n") =
    ([.pushOrderedList, .link (toC "Some") (toC "serde://option/some"),
      .link (toC "0") (toC "serde://u8"), .popList], .done) := by decide
example : fromStr (toC "serde://bool") = .ok .boolT := by decide
example : fromStr (toC "serde://seq/") = .ok (.seqT none) := by decide
example : fromStr (toC "serde://seq/12") = .ok (.seqT (some 12)) := by decide
example : fromStr (toC "serde://map") = .ok (.mapT none) := by decide
example : fromStr (toC "serde://option/none") = .error .unknownType := by decide
example : fromStr (toC "sx") = .error .unknownSchema := by decide
example : fromStr (toC "serde://unit_struct") = .error .missingPathFragment := by decide
example : fromStr (toC "serde://tuple/ab") = .error .intParseError := by decide
example : fromStr (Ty.display (.structT (toC "Point") 2)) = .ok (.structT (toC "Point") 2) := by
  decide

/-! ## The claims -/

/-- C2. Tag round-trip: for every constructible `Type` tag `t` (names and
variants containing no embedded `/`, lengths fitting in `usize`), decoding
the canonical textual encoding returns exactly `t`:
`Type::from_str(&t.to_string()) == Ok(t)`, including the unknown-length
cases `Seq(None)` and `Map(None)` encoded with an empty trailing
fragment. -/
theorem c2_tag_roundtrip (t : Ty) (h : constructible t) : fromStr t.display = .ok t := by
  cases t with
  | boolT => decide
  | i8T => decide
  | i16T => decide
  | i32T => decide
  | i64T => decide
  | i128T => decide
  | u8T => decide
  | u16T => decide
  | u32T => decide
  | u64T => decide
  | u128T => decide
  | f32T => decide
  | f64T => decide
  | charT => decide
  | stringT => decide
  | bytesT => decide
  | noneT => decide
  | someT => decide
  | unitT => decide
  | unitStructT name =>
    show fromStr (schemeChars ++ (toC "unit_struct" ++ '/' :: name)) = _
    rw [fromStr_scheme, splitSep_app (by decide), splitSep_no h]
    rfl
  | unitVariantT name variant =>
    show fromStr (schemeChars ++ (toC "unit_variant" ++ '/' :: (name ++ '/' :: variant))) = _
    rw [fromStr_scheme, splitSep_app (by decide), splitSep_app h.1, splitSep_no h.2]
    rfl
  | newtypeStructT name =>
    show fromStr (schemeChars ++ (toC "newtype_struct" ++ '/' :: name)) = _
    rw [fromStr_scheme, splitSep_app (by decide), splitSep_no h]
    rfl
  | newtypeVariantT name variant =>
    show fromStr (schemeChars ++ (toC "newtype_variant" ++ '/' :: (name ++ '/' :: variant))) = _
    rw [fromStr_scheme, splitSep_app (by decide), splitSep_app h.1, splitSep_no h.2]
    rfl
  | seqT len =>
    cases len with
    | none => decide
    | some l =>
      show fromStr (schemeChars ++ (toC "seq" ++ '/' :: natToChars l)) = _
      rw [fromStr_scheme, splitSep_app (by decide), splitSep_no (natToChars_noSlashAll l)]
      simp +decide [fromDomain, optLen, natToChars_ne_nil l, parseUsize_natToChars h,
        Except.map, Except.instMonad, Except.bind]
  | tupleT l =>
    show fromStr (schemeChars ++ (toC "tuple" ++ '/' :: natToChars l)) = _
    rw [fromStr_scheme, splitSep_app (by decide), splitSep_no (natToChars_noSlashAll l)]
    simp +decide [fromDomain, fragment, parseUsize_natToChars h,
      Except.instMonad, Except.bind]
  | tupleStructT name l =>
    show fromStr (schemeChars ++ (toC "tuple_struct" ++ '/' :: (name ++ '/' :: natToChars l))) = _
    rw [fromStr_scheme, splitSep_app (by decide), splitSep_app h.1,
      splitSep_no (natToChars_noSlashAll l)]
    simp +decide [fromDomain, fragment, parseUsize_natToChars h.2,
      Except.instMonad, Except.bind]
  | tupleVariantT name variant l =>
    show fromStr (schemeChars ++
      (toC "tuple_variant" ++ '/' :: (name ++ '/' :: (variant ++ '/' :: natToChars l)))) = _
    rw [fromStr_scheme, splitSep_app (by decide), splitSep_app h.1, splitSep_app h.2.1,
      splitSep_no (natToChars_noSlashAll l)]
    simp +decide [fromDomain, fragment, parseUsize_natToChars h.2.2,
      Except.instMonad, Except.bind]
  | mapT len =>
    cases len with
    | none => decide
    | some l =>
      show fromStr (schemeChars ++ (toC "map" ++ '/' :: natToChars l)) = _
      rw [fromStr_scheme, splitSep_app (by decide), splitSep_no (natToChars_noSlashAll l)]
      simp +decide [fromDomain, optLen, natToChars_ne_nil l, parseUsize_natToChars h,
        Except.map, Except.instMonad, Except.bind]
  | structT name l =>
    show fromStr (schemeChars ++ (toC "struct" ++ '/' :: (name ++ '/' :: natToChars l))) = _
    rw [fromStr_scheme, splitSep_app (by decide), splitSep_app h.1,
      splitSep_no (natToChars_noSlashAll l)]
    simp +decide [fromDomain, fragment, parseUsize_natToChars h.2,
      Except.instMonad, Except.bind]
  | structVariantT name variant l =>
    show fromStr (schemeChars ++
      (toC "struct_variant" ++ '/' :: (name ++ '/' :: (variant ++ '/' :: natToChars l)))) = _
    rw [fromStr_scheme, splitSep_app (by decide), splitSep_app h.1, splitSep_app h.2.1,
      splitSep_no (natToChars_noSlashAll l)]
    simp +decide [fromDomain, fragment, parseUsize_natToChars h.2.2,
      Except.instMonad, Except.bind]

/-- Witness for C2: the round-trip at concrete tags, including the
unknown-length `Seq(None)` and `Map(None)` encodings. -/
theorem c2_tag_roundtrip_witness :
    fromStr (Ty.display (.tupleVariantT (toC "Shape" ) (toC "Circle") 1)) =
      .ok (.tupleVariantT (toC "Shape") (toC "Circle") 1) ∧
    fromStr (Ty.display (.seqT none)) = .ok (.seqT none) ∧
    fromStr (Ty.display (.mapT none)) = .ok (.mapT none) :=
  ⟨c2_tag_roundtrip _ (by decide), c2_tag_roundtrip _ (by decide),
    c2_tag_roundtrip _ (by decide)⟩

/-- Modelled from the spec's escaping rule (§4.2/§6): every ASCII
punctuation character of the text is preceded by a backslash; all other
characters pass through unchanged. Reference definition for C7. -/
def specEscape (text : Str) : Str :=
  (text.map fun c => if isAsciiPunct c then ['\\', c] else [c]).flatten

lemma escapeChars_eq_spec (text : Str) : escapeChars text = specEscape text := by
  induction text with
  | nil => rfl
  | cons c r ih => rw [escapeChars, specEscape, List.map_cons, List.flatten_cons, ih]; rfl

/-- C7. Writer escaping rule: every link the writer emits consists of the
bullet prefix, `[`, the text with each ASCII punctuation character preceded
by a backslash and every other character unchanged, `](`, the URI written
verbatim with no escaping, `)`, and a line break. -/
theorem c7_writer_escaping (list : Option MList) (text uri : Str) :
    writerLink list text uri =
      ((writerBullet list).1 ++ '[' :: (specEscape text ++ ']' :: '(' :: (uri ++ [')', '\n'])),
        (writerBullet list).2) := by
  rw [writerLink, escapeChars_eq_spec]

/-- Counterexample for C5: for a map of unknown length, `serialize_map`
passes the URI `serde://map` to the tag link — not `serde://map/`, the
canonical `Display` encoding of `Map(None)` that the claim names. -/
theorem c5_counterexample :
    (serializeMapHeader none).2 = toC "serde://map" ∧
    (Ty.mapT none).display = toC "serde://map/" ∧
    (serializeMapHeader none).2 ≠ (Ty.mapT none).display := by
  refine ⟨rfl, by decide, by decide⟩

/-- C5 (amended). When serializing a sequence of unknown length the emitted
tag link carries `serde://seq/`, exactly the canonical encoding of
`Seq(None)`; for a map of unknown length it carries `serde://map`, without
the canonical empty trailing fragment, though that URI still decodes to
`Map(None)`. -/
theorem c5_amended :
    (serializeSeqHeader none).2 = (Ty.seqT none).display ∧
    (serializeMapHeader none).2 = toC "serde://map" ∧
    fromStr (serializeMapHeader none).2 = .ok (.mapT none) := by
  refine ⟨by decide, rfl, by decide⟩

/-- C10. For every unit struct, regardless of its name, the serializer
emits the literal four-character text `name` as the link text; only the URI
`serde://unit_struct/<name>` carries the actual struct name; and the
deserializer ignores the link text when reconstructing a unit struct
(`visit_unit`), so the text never affects decoding. -/
theorem c10_unit_struct_text (name text : Str) :
    serializeDoc (.unitStructV name) =
      toC "[name](serde://unit_struct/" ++ name ++ toC ")\n" ∧
    deserPrimitive text (toC "serde://unit_struct/" ++ name) = .ok .unitV := by
  constructor
  · rfl
  · have hs := splitSep_ne_nil '/' name
    rcases hsp : splitSep '/' name with _ | ⟨f, fr⟩
    · exact absurd hsp hs
    · show deserPrimitive text (schemeChars ++ (toC "unit_struct" ++ '/' :: name)) = _
      simp only [deserPrimitive]
      rw [fromStr_scheme, splitSep_app (by decide), hsp]
      rfl

/-- The thirty domain tokens recognized by `Type::from_str`. -/
def tagDomains : List Str :=
  [toC "bool", toC "i8", toC "i16", toC "i32", toC "i64", toC "i128",
   toC "u8", toC "u16", toC "u32", toC "u64", toC "u128",
   toC "f32", toC "f64", toC "char", toC "string", toC "bytes",
   toC "none", toC "some", toC "unit",
   toC "unit_struct", toC "unit_variant", toC "newtype_struct", toC "newtype_variant",
   toC "seq", toC "tuple", toC "tuple_struct", toC "tuple_variant",
   toC "map", toC "struct", toC "struct_variant"]

/-- The domains whose first consumed fragments are names/variants. -/
def nameDomains : List Str :=
  [toC "unit_struct", toC "unit_variant", toC "newtype_struct", toC "newtype_variant",
   toC "tuple_struct", toC "tuple_variant", toC "struct", toC "struct_variant"]

lemma fromDomain_unknown {domain : Str} (frags : List Str) (h : domain ∉ tagDomains) :
    fromDomain domain frags = .error .unknownType := by
  have ne : ∀ x ∈ tagDomains, domain ≠ x := fun x hx he => h (he ▸ hx)
  rw [fromDomain,
    if_neg (ne _ (by decide)), if_neg (ne _ (by decide)), if_neg (ne _ (by decide)),
    if_neg (ne _ (by decide)), if_neg (ne _ (by decide)), if_neg (ne _ (by decide)),
    if_neg (ne _ (by decide)), if_neg (ne _ (by decide)), if_neg (ne _ (by decide)),
    if_neg (ne _ (by decide)), if_neg (ne _ (by decide)), if_neg (ne _ (by decide)),
    if_neg (ne _ (by decide)), if_neg (ne _ (by decide)), if_neg (ne _ (by decide)),
    if_neg (ne _ (by decide)), if_neg (ne _ (by decide)), if_neg (ne _ (by decide)),
    if_neg (ne _ (by decide)), if_neg (ne _ (by decide)), if_neg (ne _ (by decide)),
    if_neg (ne _ (by decide)), if_neg (ne _ (by decide)), if_neg (ne _ (by decide)),
    if_neg (ne _ (by decide)), if_neg (ne _ (by decide)), if_neg (ne _ (by decide)),
    if_neg (ne _ (by decide)), if_neg (ne _ (by decide)), if_neg (ne _ (by decide))]

lemma digitsVal_none {c : Char} (hcd : isDigitCh c = false) :
    ∀ (s : Str) (a : Nat), c ∈ s → digitsVal a s = none := by
  intro s
  induction s with
  | nil => intro a hc; simp at hc
  | cons d r ih =>
    intro a hc
    rw [digitsVal]
    rcases List.mem_cons.mp hc with hc | hc
    · rw [← hc, hcd]
      rfl
    · by_cases hd : isDigitCh d
      · rw [hd, if_pos rfl]
        exact ih _ hc
      · simp [hd]

lemma parseUsize_malformed {frag : Str} {c : Char} (hc : c ∈ frag)
    (hcd : isDigitCh c = false) (hplus : c ≠ '+') :
    parseUsize frag = .error .intParseError := by
  rcases frag with _ | ⟨c0, r⟩
  · simp at hc
  · unfold parseUsize
    by_cases hc0 : c0 = '+'
    · have hcr : c ∈ r := by
        rcases List.mem_cons.mp hc with hc' | hc'
        · exact absurd (hc'.trans hc0) hplus
        · exact hc'
      simp only [if_pos hc0]
      rcases r with _ | ⟨d, r2⟩
      · simp at hcr
      · rw [digitsVal_none hcd _ 0 hcr]
    · simp only [if_neg hc0]
      rw [digitsVal_none hcd _ 0 hc]

/-- C8. Tag decode error conditions: a URI not prefixed `serde://` fails
with `UnknownSchema`; a first segment that is not a recognized kind fails
with `UnknownType`; an absent required name/variant fragment fails with
`MissingPathFragment`; a length fragment with malformed digits fails with
`IntParseError`; and an absent or empty optional-length fragment decodes to
an unknown length rather than an error. -/
theorem c8_tag_decode_errors :
    (∀ s : Str, hasPre schemeChars s = false → fromStr s = .error .unknownSchema) ∧
    (∀ (r domain : Str) (frags : List Str), splitSep '/' r = domain :: frags →
      domain ∉ tagDomains → fromStr (schemeChars ++ r) = .error .unknownType) ∧
    (∀ d ∈ nameDomains, fromStr (schemeChars ++ d) = .error .missingPathFragment) ∧
    (∀ name : Str, noSlash name →
      fromStr (schemeChars ++ (toC "unit_variant" ++ '/' :: name)) =
        .error .missingPathFragment) ∧
    (∀ (frag : Str) (c : Char), c ∈ frag → noSlash frag → isDigitCh c = false → c ≠ '+' →
      fromStr (schemeChars ++ (toC "seq" ++ '/' :: frag)) = .error .intParseError) ∧
    fromStr (toC "serde://seq") = .ok (.seqT none) ∧
    fromStr (toC "serde://seq/") = .ok (.seqT none) ∧
    fromStr (toC "serde://map") = .ok (.mapT none) ∧
    fromStr (toC "serde://map/") = .ok (.mapT none) := by
  refine ⟨?_, ?_, ?_, ?_, ?_, by decide, by decide, by decide, by decide⟩
  · intro s h
    simp [fromStr, h]
  · intro r domain frags hsp hmem
    rw [fromStr_scheme, hsp]
    exact fromDomain_unknown frags hmem
  · intro d hd
    fin_cases hd <;> decide
  · intro name h
    rw [fromStr_scheme, splitSep_app (by decide), splitSep_no h]
    rfl
  · intro frag c hc hno hcd hplus
    have hne : frag ≠ [] := by
      intro he
      rw [he] at hc
      simp at hc
    rw [fromStr_scheme, splitSep_app (by decide), splitSep_no hno]
    simp +decide [fromDomain, optLen, hne, parseUsize_malformed hc hcd hplus,
      Except.map, Except.instMonad, Except.bind]

/-- Witness for C8: each error condition at a concrete input. -/
theorem c8_tag_decode_errors_witness :
    fromStr (toC "http://x") = .error .unknownSchema ∧
    fromStr (toC "serde://option/none") = .error .unknownType ∧
    fromStr (toC "serde://newtype_struct") = .error .missingPathFragment ∧
    fromStr (toC "serde://unit_variant/Shape") = .error .missingPathFragment ∧
    fromStr (toC "serde://seq/3x") = .error .intParseError :=
  ⟨c8_tag_decode_errors.1 _ (by decide),
   c8_tag_decode_errors.2.1 (toC "option/none") (toC "option") [toC "none"]
     (by decide) (by decide),
   c8_tag_decode_errors.2.2.1 _ (by decide),
   c8_tag_decode_errors.2.2.2.1 (toC "Shape") (by decide),
   c8_tag_decode_errors.2.2.2.2.1 (toC "3x") 'x' (by decide) (by decide) (by decide)
     (by decide)⟩

/-- Dyck balance check with a running open-list count: `Push*` opens a
list, `PopList` closes one that must be open, and a well-nested sequence
started with `k` open lists ends with every list closed. `balancedFrom 0`
says every `Push*` has exactly one matching later `PopList` at the same
nesting depth. -/
def balancedFrom : Nat → List RTok → Bool
  | k, [] => decide (k = 0)
  | k, .pushOrderedList :: r => balancedFrom (k + 1) r
  | k, .pushUnorderedList :: r => balancedFrom (k + 1) r
  | k, .popList :: r =>
    match k with
    | 0 => false
    | k' + 1 => balancedFrom k' r
  | k, .link _ _ :: r => balancedFrom k r

/-- Well-nestedness of a token sequence emitted at the document root. -/
def isBalanced (ts : List RTok) : Bool := balancedFrom 0 ts

lemma balancedFrom_pop (k : Nat) (r : List RTok) :
    balancedFrom (k + 1) (.popList :: r) = balancedFrom k r := rfl

lemma balancedFrom_link (k : Nat) (t u : Str) (r : List RTok) :
    balancedFrom k (.link t u :: r) = balancedFrom k r := rfl

lemma runF_balanced :
    ∀ (fuel : Nat) (chars : Str) (indents : List Nat) (st : RSt),
      (runF fuel chars indents st).2 = .done →
      balancedFrom indents.length (runF fuel chars indents st).1 = true := by
  intro fuel
  induction fuel with
  | zero => intro chars indents st h; simp [runF] at h
  | succ fuel ih =>
    intro chars indents st h
    cases st with
    | beforeItem =>
      rw [runF.eq_def] at h ⊢
      dsimp only at h ⊢
      exact ih _ _ _ h
    | inItem d =>
      rw [runF.eq_def] at h ⊢
      dsimp only at h ⊢
      by_cases hded : dedentNow indents d = true
      · rw [if_pos hded] at h ⊢
        cases indents with
        | nil => simp [dedentNow] at hded
        | cons i t =>
          dsimp only at h ⊢
          rw [List.length_cons, balancedFrom_pop]
          exact ih _ _ _ h
      · rw [if_neg hded] at h ⊢
        cases chars with
        | nil => exact ih _ _ _ h
        | cons c rest =>
          dsimp only at h ⊢
          by_cases hbul : (isDigitCh c || c = '*') = true
          · rw [if_pos hbul] at h ⊢
            rcases hA : (if isDigitCh c then
                match rest.dropWhile (fun ch => isDigitCh ch) with
                | c1 :: r2 => if c1 = '.' then some r2 else none
                | [] => none
              else some rest) with _ | r2
            · rw [hA] at h; simp at h
            · simp only [hA] at h ⊢
              try dsimp only at h ⊢
              rcases r2 with _ | ⟨c2, r3⟩
              · simp at h
              · dsimp only at h ⊢
                by_cases hc2 : c2 = ' '
                · rw [if_pos hc2] at h ⊢
                  by_cases hind : indentNow indents d = true
                  · rw [if_pos hind] at h ⊢
                    dsimp only at h ⊢
                    have hb := ih r3 (d :: indents) (.inItem d) h
                    rw [List.length_cons] at hb
                    by_cases hstar : c = '*'
                    · rw [if_pos hstar]
                      exact hb
                    · rw [if_neg hstar]
                      exact hb
                  · rw [if_neg hind] at h ⊢
                    exact ih _ _ _ h
                · rw [if_neg hc2] at h
                  simp at h
          · rw [if_neg hbul] at h ⊢
            by_cases hnl : c = '\n'
            · rw [if_pos hnl] at h ⊢
              exact ih _ _ _ h
            · rw [if_neg hnl] at h ⊢
              by_cases hlb : c = '['
              · rw [if_pos hlb] at h ⊢
                rcases h1 : takeUntil ']' rest with _ | ⟨text, r1⟩
                · rw [h1] at h; simp at h
                · simp only [h1] at h ⊢
                  try dsimp only at h ⊢
                  rcases r1 with _ | ⟨c1, r2⟩
                  · simp at h
                  · dsimp only at h ⊢
                    by_cases hpar : c1 = '('
                    · rw [if_pos hpar] at h ⊢
                      rcases h2 : takeUntil ')' r2 with _ | ⟨uri, r3⟩
                      · rw [h2] at h; simp at h
                      · simp only [h2] at h ⊢
                        try dsimp only at h ⊢
                        rcases h3 : takeUntil '\n' r3 with _ | ⟨junk, r4⟩
                        · rw [h3] at h; simp at h
                        · simp only [h3] at h ⊢
                          try dsimp only at h ⊢
                          rw [balancedFrom_link]
                          exact ih _ _ _ h
                    · rw [if_neg hpar] at h
                      simp at h
              · rw [if_neg hlb] at h
                simp at h
    | atEOF =>
      rw [runF.eq_def] at h ⊢
      dsimp only at h ⊢
      cases indents with
      | nil => simp [balancedFrom]
      | cons i t =>
        dsimp only at h ⊢
        rw [List.length_cons, balancedFrom_pop]
        exact ih _ _ _ h

/-- C9. Reader token well-nesting: for every input text that the reader
consumes to exhaustion without a fatal structural violation (a run ending
normally through the EOF state), the emitted token sequence is well-nested:
every `Push*` has exactly one matching later `PopList` at the same nesting
depth. Moreover, on a document with three consecutively deeper nested lists
then an immediate return to root depth in one step, the reader emits one
`PopList` per dedented level, in order, then the root-level token, and one
final `PopList` per still-open list at end-of-input. -/
theorem c9_reader_well_nesting :
    (∀ doc : Str, (runReader doc).2 = .done → isBalanced (runReader doc).1 = true) ∧
    runReader (toC "* \n    0. \n        0. [a](u)\n* [b](u)\n") =
      ([.pushUnorderedList, .pushOrderedList, .pushOrderedList,
        .link (toC "a") (toC "u"), .popList, .popList,
        .link (toC "b") (toC "u"), .popList], .done) := by
  constructor
  · intro doc h
    exact runF_balanced _ _ _ _ h
  · decide

/-- Witness for C9: the well-nesting conclusion at a concrete document. -/
theorem c9_reader_well_nesting_witness :
    isBalanced (runReader (toC "* [x](u)\n")).1 = true :=
  c9_reader_well_nesting.1 _ (by decide)

/-- C1. The value round-trip fails on the code: serializing the option
value `Some(0u8)` emits the tag URI `serde://option/some`, which
`Type::from_str` rejects with `UnknownType` (the codec only accepts
`serde://some`), so decoding the serializer's own output errors instead of
returning the value. Decoding the spec-canonical document for the same
value succeeds, showing `serialize_some`'s URI is the slip.
(`lib.rs`'s own `proptest_roundtrip` covers option values and fails on
this input.) -/
theorem c1_value_roundtrip_failure :
    deserializeDoc (serializeDoc (.optionV (some (.u8V 0)))) =
      .error (.typeParse .unknownType) ∧
    serializeDoc (.optionV (some (.u8V 0))) =
      toC "0. [Some](serde://option/some)\n1. [0](serde://u8)\n" ∧
    deserializeDoc (toC "0. [Some](serde://some)\n1. [0](serde://u8)\n") =
      .ok (.optionV (some (.u8V 0))) :=
  ⟨rfl, rfl, rfl⟩

/-- C3. Serializing `None` emits `[None](serde://option/none)` — not the
claimed `[None](serde://none)` — and deserializing the emitted document
fails with `UnknownType` instead of yielding `None`. The claimed document
`[None](serde://none)` does deserialize to `None`, so `serialize_none`'s
URI is the slip. -/
theorem c3_none_scenario_failure :
    serializeDoc (.optionV none) = toC "[None](serde://option/none)\n" ∧
    toC "[None](serde://option/none)\n" ≠ toC "[None](serde://none)\n" ∧
    deserializeDoc (serializeDoc (.optionV none)) = .error (.typeParse .unknownType) ∧
    deserializeDoc (toC "[None](serde://none)\n") = .ok (.optionV none) :=
  ⟨rfl, by decide, rfl, rfl⟩

/-- The 32 ASCII punctuation characters, in ascending order. -/
def allPunct : Str :=
  (List.range 128).filterMap fun n =>
    if isAsciiPunct (Char.ofNat n) then some (Char.ofNat n) else none

/-- C4. The writer/reader escaping round-trip fails on the code: the writer
escapes `]` as `\]`, but the reader's `take_chars_until(']')` stops at that
very `]`, the next character is then not `(`, and the reader aborts with no
tokens at all, so deserializing the writer's own output for the one-char
string `]` — or for the string of all ASCII punctuation characters — fails
with `UnexpectedEOF` instead of returning the text. (`lib.rs` carries a
FIXME admitting escape handling is wrong, and its `proptest_roundtrip`
covers arbitrary strings.) -/
theorem c4_escaping_roundtrip_failure :
    serializeDoc (.stringV (toC "]")) = toC "[\\]](serde://string)\n" ∧
    runReader (serializeDoc (.stringV (toC "]"))) = ([], .aborted) ∧
    deserializeDoc (serializeDoc (.stringV (toC "]"))) = .error .unexpectedEOF ∧
    deserializeDoc (serializeDoc (.stringV allPunct)) = .error .unexpectedEOF :=
  ⟨rfl, by decide, rfl, rfl⟩

/-- C6. Serializing the struct `Point { x: 1u8, y: 2u8 }` produces the
unordered list whose first item is
`[Struct Point of length 2](serde://struct/Point/2)`, followed by two
ordered two-item pair sublists `[x](serde://string)` / `[1](serde://u8)`
and `[y](serde://string)` / `[2](serde://u8)`; deserializing this document
back yields the value with fields x = 1 and y = 2 (the generic map visitor
reconstructs exactly those key/value pairs, from which `Point { x: 1, y: 2 }`
is built). -/
theorem c6_point_struct_scenario :
    serializeDoc (.structV (toC "Point") [(toC "x", .u8V 1), (toC "y", .u8V 2)]) =
      toC ("* [Struct Point of length 2](serde://struct/Point/2)\n* \n" ++
        "    0. [x](serde://string)\n    1. [1](serde://u8)\n* \n" ++
        "    0. [y](serde://string)\n    1. [2](serde://u8)\n") ∧
    deserializeDoc
        (toC ("* [Struct Point of length 2](serde://struct/Point/2)\n* \n" ++
          "    0. [x](serde://string)\n    1. [1](serde://u8)\n* \n" ++
          "    0. [y](serde://string)\n    1. [2](serde://u8)\n")) =
      .ok (.mapV [(.stringV (toC "x"), .u8V 1), (.stringV (toC "y"), .u8V 2)]) :=
  ⟨rfl, rfl⟩

end SerdeMml
